import Mathlib

/-!
# Verification of the QueueCTL job-queue store (`src/db.py`)

A shallow embedding of the SQLite-backed job store of QueueCTL.  The `jobs`
table is a list of `Job` rows and the `config` table a list of key/value
pairs; SQLite timestamps are modelled as integers (ISO-8601 timestamp strings
compare consistently with chronological order, so `≤` on `Int` is faithful to
the `run_at <= CURRENT_TIMESTAMP` comparison in SQL).  Every store-touching
function of `db.py` is embedded as a pure function from a `Store` (and the
current time `now`) to its result and the updated `Store`.  Branches of the
Python code reachable only through an `sqlite3.Error` (storage faults) are
outside the pure model; where a claim is about the value the code returns on
such a fault, that constant return value is embedded on its own
(`insert_job_error_result`).
-/

set_option autoImplicit false

namespace QueueCTL

/-- One row of the `jobs` table (schema in `initialize_database`, db.py).
`attempts` is a `Nat`: every write of the field stores `0` or a previous
value plus one. -/
structure Job where
  id : String
  command : String
  state : String
  attempts : Nat
  max_retries : Int
  run_at : Int
  created_at : Int
  updated_at : Int
deriving Repr, DecidableEq

/-- The persistent store: the `jobs` table and the `config` key/value table.
`id` (resp. `key`) is a PRIMARY KEY; uniqueness is enforced by `insert_job`
and by the upsert in `set_config_value`. -/
structure Store where
  jobs : List Job
  config : List (String × String)
deriving Repr, DecidableEq

/-- `get_config_value` (db.py:90): `SELECT value FROM config WHERE key = ?`,
returning the value or `None` when the key is absent. -/
def get_config_value (s : Store) (key : String) : Option String :=
  (s.config.find? (fun kv => kv.1 = key)).map (fun kv => kv.2)

/-- `set_config_value` (db.py:386): `INSERT OR REPLACE INTO config`, i.e.
upsert: overwrite the value when the key exists, append otherwise. -/
def set_config_value (s : Store) (key value : String) : Store :=
  if s.config.any (fun kv => kv.1 = key) then
    { s with config := s.config.map (fun kv => if kv.1 = key then (key, value) else kv) }
  else
    { s with config := s.config ++ [(key, value)] }

/-- `insert_job` (db.py:112): `INSERT INTO jobs ... VALUES (?, ?, ?, 'pending',
CURRENT_TIMESTAMP, CURRENT_TIMESTAMP, CURRENT_TIMESTAMP)`; the `attempts`
column takes its schema default `0`.  A duplicate `id` raises
`sqlite3.IntegrityError`, caught and turned into `False` with the row left
untouched. -/
def insert_job (s : Store) (now : Int) (job_id command : String) (max_retries : Int) :
    Bool × Store :=
  if s.jobs.any (fun j => j.id = job_id) then
    (false, s)
  else
    (true, { s with jobs := s.jobs ++
      [{ id := job_id, command := command, state := "pending", attempts := 0,
         max_retries := max_retries, run_at := now, created_at := now,
         updated_at := now }] })

/-- The value `insert_job` returns from its `except sqlite3.Error` branch
(db.py:132-134): a storage fault surfaces to the caller as the same `False`
as a duplicate id. -/
def insert_job_error_result : Bool := false

/-- Modelled from the spec: `insert(id, command, maxRetries) →
success|duplicate_id_error|storage_error` — the three-way result type the
spec requires of `insert`, keeping a duplicate id distinguishable from a
storage fault.  The source's `insert_job` returns a plain `bool` instead. -/
inductive SpecInsertResult where
  | success
  | duplicate_id_error
  | storage_error
deriving DecidableEq, Repr

/-- A row satisfies the claim scan `state = 'pending' AND run_at <=
CURRENT_TIMESTAMP` (db.py:170-174). -/
def isEligible (now : Int) (j : Job) : Prop :=
  j.state = "pending" ∧ j.run_at ≤ now

instance (now : Int) (j : Job) : Decidable (isEligible now j) := by
  unfold isEligible; infer_instance

/-- `ORDER BY created_at ASC LIMIT 1`: the first row attaining the minimal
`created_at` of the list. -/
def argminCreated : List Job → Option Job
  | [] => none
  | j :: rest =>
    match argminCreated rest with
    | none => some j
    | some k => if j.created_at ≤ k.created_at then some j else some k

/-- The `SELECT` of `fetch_pending_job` (db.py:170-177): the oldest row
(`created_at` ascending) among those pending and due. -/
def selectPending (s : Store) (now : Int) : Option Job :=
  argminCreated (s.jobs.filter (fun j => decide (isEligible now j)))

/-- `fetch_pending_job` (db.py:144): inside one `BEGIN IMMEDIATE` transaction,
select the oldest pending-and-due row; if found, set its state to
`processing` (touching `updated_at`) and return the pre-update row; otherwise
return `None` and leave the store unchanged. -/
def fetch_pending_job (s : Store) (now : Int) : Option Job × Store :=
  match selectPending s now with
  | none => (none, s)
  | some j =>
    (some j,
     { s with jobs := s.jobs.map (fun r =>
         if r.id = j.id then { r with state := "processing", updated_at := now } else r) })

/-- `update_job_status` (db.py:207): `UPDATE jobs SET state = ?, updated_at =
CURRENT_TIMESTAMP WHERE id = ?` — an unconditional state overwrite. -/
def update_job_status (s : Store) (now : Int) (job_id new_state : String) : Store :=
  { s with jobs := s.jobs.map (fun r =>
      if r.id = job_id then { r with state := new_state, updated_at := now } else r) }

/-- Python `int(str)` on the trimmed string: an optional sign followed by a
non-empty run of decimal digits; anything else raises, modelled as `none`. -/
def pythonInt (str : String) : Option Int :=
  let cs := str.trim.toList
  let digits : List Char → Option Nat := fun ds =>
    if ds ≠ [] ∧ ds.all Char.isDigit then
      some (ds.foldl (fun n c => 10 * n + (c.toNat - 48)) 0)
    else none
  match cs with
  | '-' :: rest => (digits rest).map (fun n => -(n : Int))
  | '+' :: rest => (digits rest).map (fun n => (n : Int))
  | _ => (digits cs).map (fun n => (n : Int))

/-- The backoff base of `update_job_on_failure` (db.py:256-261):
`int(get_config_value('backoff_base'))`, with any exception (missing key,
hence `int(None)`, or a non-numeric string) falling back to `2`. -/
def backoffBase (s : Store) : Int :=
  match (get_config_value s "backoff_base").bind pythonInt with
  | some b => b
  | none => 2

/-- `update_job_on_failure` (db.py:230): increment the attempt count from the
row the caller holds; at `new_attempts ≥ max_retries` mark the row `dead`,
otherwise mark it `pending` with `run_at = now + base ^ new_attempts`
(`math.pow(backoff_base, new_attempts)` seconds from `utcnow`).  Returns the
new state together with the updated store. -/
def update_job_on_failure (s : Store) (now : Int) (job : Job) : String × Store :=
  let new_attempts := job.attempts + 1
  if (new_attempts : Int) ≥ job.max_retries then
    ("dead",
     { s with jobs := s.jobs.map (fun r =>
         if r.id = job.id then
           { r with state := "dead", attempts := new_attempts, updated_at := now }
         else r) })
  else
    let base := backoffBase s
    let next_run_at := now + base ^ new_attempts
    ("pending",
     { s with jobs := s.jobs.map (fun r =>
         if r.id = job.id then
           { r with state := "pending", attempts := new_attempts,
                    run_at := next_run_at, updated_at := now }
         else r) })

/-- `retry_dead_job` (db.py:349): `UPDATE jobs SET state='pending',
attempts=0, run_at=CURRENT_TIMESTAMP, updated_at=CURRENT_TIMESTAMP WHERE id =
? AND state = 'dead'`; returns whether the rowcount was non-zero. -/
def retry_dead_job (s : Store) (now : Int) (job_id : String) : Bool × Store :=
  let hits := s.jobs.countP (fun r => decide (r.id = job_id ∧ r.state = "dead"))
  (hits ≠ 0,
   { s with jobs := s.jobs.map (fun r =>
       if r.id = job_id ∧ r.state = "dead" then
         { r with state := "pending", attempts := 0, run_at := now, updated_at := now }
       else r) })

/-- Looking a row up by id (ids are unique under the insert discipline). -/
def findJob (s : Store) (job_id : String) : Option Job :=
  s.jobs.find? (fun j => j.id = job_id)

/-- `n` workers call `fetch_pending_job` one after the other; `BEGIN
IMMEDIATE` serialises concurrent claim transactions, so any concurrent
execution of `n` claims is equal to this sequential composition in some
order.  Returns the list of per-caller results and the final store. -/
def claimN : Nat → Store → Int → List (Option Job) × Store
  | 0, s, _ => ([], s)
  | n + 1, s, now =>
    let (r, s') := fetch_pending_job s now
    let (rs, s'') := claimN n s' now
    (r :: rs, s'')

/-! ## Lemmas on the claim scan -/

theorem argminCreated_cons_of_none {a : Job} {t : List Job}
    (h : argminCreated t = none) : argminCreated (a :: t) = some a := by
  unfold argminCreated; rw [h]

theorem argminCreated_cons_of_some {a k : Job} {t : List Job}
    (h : argminCreated t = some k) :
    argminCreated (a :: t) =
      if a.created_at ≤ k.created_at then some a else some k := by
  unfold argminCreated; rw [h]

theorem argminCreated_eq_none {l : List Job} : argminCreated l = none ↔ l = [] := by
  cases l with
  | nil => simp [argminCreated]
  | cons a t =>
    cases h : argminCreated t with
    | none => simp [argminCreated_cons_of_none h]
    | some k =>
      rw [argminCreated_cons_of_some h]
      constructor
      · intro hn; split at hn <;> cases hn
      · intro hn; cases hn

theorem argminCreated_mem {l : List Job} {j : Job} (h : argminCreated l = some j) :
    j ∈ l := by
  induction l generalizing j with
  | nil => simp [argminCreated] at h
  | cons a t ih =>
    cases ht : argminCreated t with
    | none =>
      rw [argminCreated_cons_of_none ht] at h
      simp only [Option.some.injEq] at h
      exact h ▸ List.mem_cons_self a t
    | some k =>
      rw [argminCreated_cons_of_some ht] at h
      by_cases hc : a.created_at ≤ k.created_at
      · rw [if_pos hc] at h
        simp only [Option.some.injEq] at h
        exact h ▸ List.mem_cons_self a t
      · rw [if_neg hc] at h
        simp only [Option.some.injEq] at h
        exact h ▸ List.mem_cons_of_mem a (ih ht)

theorem argminCreated_le {l : List Job} {j : Job} (h : argminCreated l = some j) :
    ∀ r ∈ l, j.created_at ≤ r.created_at := by
  induction l generalizing j with
  | nil => simp [argminCreated] at h
  | cons a t ih =>
    intro r hr
    rw [List.mem_cons] at hr
    cases ht : argminCreated t with
    | none =>
      rw [argminCreated_cons_of_none ht] at h
      simp only [Option.some.injEq] at h
      have hte : t = [] := argminCreated_eq_none.mp ht
      rcases hr with rfl | hr
      · exact h ▸ le_refl _
      · rw [hte] at hr; cases hr
    | some k =>
      rw [argminCreated_cons_of_some ht] at h
      by_cases hc : a.created_at ≤ k.created_at
      · rw [if_pos hc] at h
        simp only [Option.some.injEq] at h
        subst h
        rcases hr with rfl | hr
        · exact le_refl _
        · exact le_trans hc (ih ht r hr)
      · rw [if_neg hc] at h
        simp only [Option.some.injEq] at h
        subst h
        rcases hr with rfl | hr
        · exact le_of_lt (lt_of_not_le hc)
        · exact ih ht r hr

theorem selectPending_some {s : Store} {now : Int} {j : Job}
    (h : selectPending s now = some j) :
    j ∈ s.jobs ∧ isEligible now j ∧
      ∀ r ∈ s.jobs, isEligible now r → j.created_at ≤ r.created_at := by
  have hmem := argminCreated_mem h
  rw [List.mem_filter] at hmem
  refine ⟨hmem.1, of_decide_eq_true hmem.2, ?_⟩
  intro r hr he
  exact argminCreated_le h r (List.mem_filter.2 ⟨hr, decide_eq_true he⟩)

theorem selectPending_none {s : Store} {now : Int}
    (h : selectPending s now = none) :
    ∀ r ∈ s.jobs, ¬ isEligible now r := by
  intro r hr he
  have hnil : s.jobs.filter (fun r => decide (isEligible now r)) = [] :=
    argminCreated_eq_none.mp h
  exact List.filter_eq_nil_iff.mp hnil r hr (decide_eq_true he)

theorem selectPending_eq_none {s : Store} {now : Int}
    (h : ∀ r ∈ s.jobs, ¬ isEligible now r) :
    selectPending s now = none := by
  unfold selectPending
  rw [argminCreated_eq_none, List.filter_eq_nil_iff]
  intro r hr
  simpa using h r hr

theorem fetch_pending_job_of_none {s : Store} {now : Int}
    (h : ∀ r ∈ s.jobs, ¬ isEligible now r) :
    fetch_pending_job s now = (none, s) := by
  unfold fetch_pending_job
  rw [selectPending_eq_none h]

/-! ## Failure handling (`update_job_on_failure`) -/

/-- **C2, counterexample.** The claim promises `state = pending` for every
failing job with `attempts = k < max_retries`; but a job with `attempts = 0`
and `max_retries = 1` (so `k < max_retries`) is sent to `dead`, because the
code compares the post-increment count `k + 1` against `max_retries`. -/
theorem retry_reschedule_counterexample :
    (((⟨"j1", "cmd", "pending", 0, 1, 0, 0, 0⟩ : Job).attempts : Int) <
        (⟨"j1", "cmd", "pending", 0, 1, 0, 0, 0⟩ : Job).max_retries) ∧
    (update_job_on_failure ⟨[⟨"j1", "cmd", "pending", 0, 1, 0, 0, 0⟩], []⟩ 0
        ⟨"j1", "cmd", "pending", 0, 1, 0, 0, 0⟩).1 ≠ "pending" := by
  decide

/-- **C2 (amended).** For every job with `attempts = k` such that
`k + 1 < max_retries`, `update_job_on_failure` sets `state = pending`,
`attempts = k + 1` and `run_at = now + base ^ (k + 1)`, where `base` is the
parsed config value of `backoff_base` and falls back to `2` when the key is
missing or its value does not parse as an integer. -/
theorem retry_reschedule_backoff (s : Store) (now : Int) (job : Job)
    (h : (job.attempts : Int) + 1 < job.max_retries) :
    (update_job_on_failure s now job).1 = "pending" ∧
    (update_job_on_failure s now job).2.jobs =
      s.jobs.map (fun r =>
        if r.id = job.id then
          { r with state := "pending", attempts := job.attempts + 1,
                   run_at := now + backoffBase s ^ (job.attempts + 1),
                   updated_at := now }
        else r) ∧
    (get_config_value s "backoff_base" = none → backoffBase s = 2) ∧
    (∀ v, get_config_value s "backoff_base" = some v → pythonInt v = none →
        backoffBase s = 2) ∧
    (∀ v b, get_config_value s "backoff_base" = some v → pythonInt v = some b →
        backoffBase s = b) := by
  have hc : ¬ (((job.attempts + 1 : Nat) : Int) ≥ job.max_retries) := by
    push_cast; omega
  refine ⟨?_, ?_, ?_, ?_, ?_⟩
  · simp only [update_job_on_failure]
    rw [if_neg hc]
  · simp only [update_job_on_failure]
    rw [if_neg hc]
  · intro hn
    unfold backoffBase
    rw [hn]
    rfl
  · intro v hv hn
    unfold backoffBase
    rw [hv]
    simp [hn]
  · intro v b hv hb
    unfold backoffBase
    rw [hv]
    simp [hb]

/-- **C2, witness.** A concrete failing job (`attempts = 0`,
`max_retries = 3`, configured base `3`) is rescheduled as `pending`. -/
theorem retry_reschedule_backoff_witness :
    (update_job_on_failure
        ⟨[⟨"j1", "cmd", "pending", 0, 3, 0, 0, 0⟩], [("backoff_base", "3")]⟩ 7
        ⟨"j1", "cmd", "pending", 0, 3, 0, 0, 0⟩).1 = "pending" :=
  (retry_reschedule_backoff _ 7 _ (by norm_num)).1

/-- **C3.** A job transitions to `dead` exactly when the post-increment
attempt count reaches `max_retries`; in particular a failing job with
`attempts = max_retries - 1` is marked `dead` with `attempts = max_retries`,
and no `run_at` rescheduling is performed (the dead-branch update touches
only `state`, `attempts` and `updated_at`). -/
theorem dead_only_at_exhausted_retries :
    (∀ (s : Store) (now : Int) (job : Job),
        (update_job_on_failure s now job).1 = "dead" ↔
          job.max_retries ≤ (job.attempts : Int) + 1) ∧
    (∀ (s : Store) (now : Int) (job : Job),
        (job.attempts : Int) = job.max_retries - 1 →
          (update_job_on_failure s now job).1 = "dead" ∧
          ((job.attempts + 1 : Nat) : Int) = job.max_retries ∧
          (update_job_on_failure s now job).2.jobs =
            s.jobs.map (fun r =>
              if r.id = job.id then
                { r with state := "dead", attempts := job.attempts + 1,
                         updated_at := now }
              else r)) := by
  have key : ∀ (s : Store) (now : Int) (job : Job),
      (update_job_on_failure s now job).1 = "dead" ↔
        job.max_retries ≤ (job.attempts : Int) + 1 := by
    intro s now job
    simp only [update_job_on_failure]
    by_cases hc : ((job.attempts + 1 : Nat) : Int) ≥ job.max_retries
    · rw [if_pos hc]
      push_cast at hc
      simpa using hc
    · rw [if_neg hc]
      push_cast at hc
      constructor
      · intro hp
        have hps : "pending" = "dead" := hp
        exact absurd hps (by decide)
      · intro hle
        omega
  refine ⟨key, ?_⟩
  intro s now job h
  have hc : ((job.attempts + 1 : Nat) : Int) ≥ job.max_retries := by
    push_cast; omega
  refine ⟨(key s now job).mpr (by omega), by push_cast; omega, ?_⟩
  simp only [update_job_on_failure]
  rw [if_pos hc]

/-- **C4.** Every run of `update_job_on_failure` returns a state in
`{pending, dead}`, and every row of the resulting store either carries that
returned state or is an unmodified original row: no third state is ever
persisted by the operation. -/
theorem failure_yields_pending_or_dead (s : Store) (now : Int) (job : Job) :
    ((update_job_on_failure s now job).1 = "pending" ∨
      (update_job_on_failure s now job).1 = "dead") ∧
    ∀ r ∈ (update_job_on_failure s now job).2.jobs,
      r.state = (update_job_on_failure s now job).1 ∨ r ∈ s.jobs := by
  simp only [update_job_on_failure]
  split
  · refine ⟨Or.inr rfl, ?_⟩
    intro r hr
    simp only [List.mem_map] at hr
    obtain ⟨a, ha, rfl⟩ := hr
    by_cases hid : a.id = job.id
    · rw [if_pos hid]
      exact Or.inl rfl
    · rw [if_neg hid]
      exact Or.inr ha
  · refine ⟨Or.inl rfl, ?_⟩
    intro r hr
    simp only [List.mem_map] at hr
    obtain ⟨a, ha, rfl⟩ := hr
    by_cases hid : a.id = job.id
    · rw [if_pos hid]
      exact Or.inl rfl
    · rw [if_neg hid]
      exact Or.inr ha

/-! ## Config table -/

theorem config_find_replace (l : List (String × String)) (k v : String)
    (h : l.any (fun kv => decide (kv.1 = k)) = true) :
    (l.map (fun kv => if kv.1 = k then (k, v) else kv)).find?
      (fun kv => decide (kv.1 = k)) = some (k, v) := by
  induction l with
  | nil => simp at h
  | cons a t ih =>
    by_cases ha : a.1 = k
    · simp [List.find?_cons, if_pos ha]
    · have ht : t.any (fun kv => decide (kv.1 = k)) = true := by
        simp only [List.any_cons, Bool.or_eq_true, decide_eq_true_eq] at h ⊢
        rcases h with h | h
        · exact absurd h ha
        · simpa using h
      simp only [List.map_cons, if_neg ha, List.find?_cons, decide_eq_false ha]
      exact ih ht

/-- **C9.** `setConfig` then `getConfig` on the same key returns the value
just written (upsert: created when absent, overwritten when present), and
`getConfig` on a key with no entry returns `none` — the store layer never
substitutes a default. -/
theorem config_roundtrip (s : Store) (k v k' : String) :
    get_config_value (set_config_value s k v) k = some v ∧
    ((∃ kv ∈ s.config, kv.1 = k') ∨ get_config_value s k' = none) := by
  constructor
  · unfold get_config_value set_config_value
    by_cases h : s.config.any (fun kv => decide (kv.1 = k)) = true
    · rw [if_pos h]
      simp only
      rw [config_find_replace s.config k v h]
      rfl
    · rw [if_neg h]
      simp only
      rw [List.find?_append]
      have hnone : s.config.find? (fun kv => decide (kv.1 = k)) = none := by
        rw [List.find?_eq_none]
        intro x hx hdx
        exact h (List.any_eq_true.2 ⟨x, hx, hdx⟩)
      rw [hnone]
      simp [List.find?]
  · by_cases h : ∃ kv ∈ s.config, kv.1 = k'
    · exact Or.inl h
    · refine Or.inr ?_
      unfold get_config_value
      have hnone : s.config.find? (fun kv => decide (kv.1 = k')) = none := by
        rw [List.find?_eq_none]
        intro x hx hdx
        exact h ⟨x, hx, by simpa using hdx⟩
      rw [hnone]
      rfl

/-! ## DLQ retry (`retry_dead_job`) -/

/-- **C7.** `retry_dead_job` reports success exactly when a row with the
given id is currently `dead`; the update rewrites exactly the dead rows with
that id to `state = pending`, `attempts = 0`, `run_at = now`,
`updated_at = now`; on `not_found` the store is unchanged; and a second call
on the resulting store always reports `not_found`, since the addressed row is
no longer `dead`. -/
theorem dlq_retry_dead_only (s : Store) (now : Int) (job_id : String) :
    ((retry_dead_job s now job_id).1 = true ↔
      ∃ r ∈ s.jobs, r.id = job_id ∧ r.state = "dead") ∧
    (retry_dead_job s now job_id).2.jobs =
      s.jobs.map (fun r =>
        if r.id = job_id ∧ r.state = "dead" then
          { r with state := "pending", attempts := 0, run_at := now,
                   updated_at := now }
        else r) ∧
    ((retry_dead_job s now job_id).1 = false →
      (retry_dead_job s now job_id).2 = s) ∧
    (retry_dead_job (retry_dead_job s now job_id).2 now job_id).1 = false := by
  refine ⟨?_, rfl, ?_, ?_⟩
  · simp only [retry_dead_job, ne_eq, decide_eq_true_eq]
    constructor
    · intro h
      have hpos : 0 < s.jobs.countP
          (fun r => decide (r.id = job_id ∧ r.state = "dead")) :=
        Nat.pos_of_ne_zero h
      have := List.countP_pos_iff.mp hpos
      simpa using this
    · intro h
      have hpos : 0 < s.jobs.countP
          (fun r => decide (r.id = job_id ∧ r.state = "dead")) := by
        rw [List.countP_pos_iff]
        simpa using h
      omega
  · intro h
    simp only [retry_dead_job, ne_eq, decide_eq_true_eq] at h ⊢
    rw [decide_eq_false_iff_not, not_not] at h
    have hall := List.countP_eq_zero.mp h
    have hmap : s.jobs.map (fun r =>
        if r.id = job_id ∧ r.state = "dead" then
          { r with state := "pending", attempts := 0, run_at := now,
                   updated_at := now }
        else r) = s.jobs := by
      rw [List.map_congr_left (g := id) ?_, List.map_id]
      intro r hr
      have := hall r hr
      rw [decide_eq_true_eq] at this  -- this : ¬ (r.id = job_id ∧ r.state = "dead")
      simp only [id]
      exact if_neg this
    rw [hmap]
  · simp only [retry_dead_job, ne_eq]
    rw [decide_eq_false_iff_not, not_not, List.countP_eq_zero]
    intro r' hr'
    simp only [List.mem_map] at hr'
    obtain ⟨a, _, rfl⟩ := hr'
    by_cases hc : a.id = job_id ∧ a.state = "dead"
    · rw [if_pos hc]
      simp
    · rw [if_neg hc]
      simpa using hc

/-- **C10.** `retry_dead_job` never touches the config table; within the jobs
table every row keeps its `id`, `command`, `max_retries` and `created_at`,
and every row whose id is not the addressed one is left entirely unchanged —
only `state`, `attempts`, `run_at`, `updated_at` of the addressed row are
written. -/
theorem dlq_retry_frame (s : Store) (now : Int) (job_id : String) :
    (retry_dead_job s now job_id).2.config = s.config ∧
    List.Forall₂ (fun r r' =>
        r'.id = r.id ∧ r'.command = r.command ∧
        r'.max_retries = r.max_retries ∧ r'.created_at = r.created_at ∧
        (r.id = job_id ∨ r' = r))
      s.jobs (retry_dead_job s now job_id).2.jobs := by
  refine ⟨rfl, ?_⟩
  simp only [retry_dead_job]
  rw [List.forall₂_map_right_iff, List.forall₂_same]
  intro r _
  by_cases hc : r.id = job_id ∧ r.state = "dead"
  · rw [if_pos hc]
    exact ⟨rfl, rfl, rfl, rfl, Or.inl hc.1⟩
  · rw [if_neg hc]
    exact ⟨rfl, rfl, rfl, rfl, Or.inr rfl⟩

/-! ## Insert (`insert_job`) -/

/-- **C5, counterexample.** Inserting an id that already exists returns
exactly `insert_job_error_result` — the same `False` that the
`except sqlite3.Error` branch returns for a generic storage fault — while
the spec's result type keeps `duplicate_id_error` and `storage_error`
distinct.  The caller therefore cannot distinguish the two outcomes. -/
theorem insert_duplicate_indistinguishable :
    (insert_job ⟨[⟨"a", "c", "pending", 0, 3, 0, 0, 0⟩], []⟩ 5 "a" "x" 3).1 =
        insert_job_error_result ∧
    SpecInsertResult.duplicate_id_error ≠ SpecInsertResult.storage_error := by
  decide

/-- **C5 (amended).** Inserting an id that already exists fails (`False`)
and leaves the store — in particular the existing row — untouched; but the
failure value is identical to the one returned on a generic storage error,
so the duplicate is not distinguishable from a storage fault by the
caller. -/
theorem insert_duplicate_fails_without_overwrite (s : Store) (now : Int)
    (job_id cmd : String) (mr : Int)
    (h : ∃ r ∈ s.jobs, r.id = job_id) :
    (insert_job s now job_id cmd mr).1 = false ∧
    (insert_job s now job_id cmd mr).2 = s ∧
    (insert_job s now job_id cmd mr).1 = insert_job_error_result := by
  have hb : s.jobs.any (fun j => decide (j.id = job_id)) = true := by
    rw [List.any_eq_true]
    obtain ⟨r, hr, hid⟩ := h
    exact ⟨r, hr, by simpa using hid⟩
  simp only [insert_job]
  rw [if_pos hb]
  exact ⟨rfl, rfl, rfl⟩

/-- **C5, witness.** A concrete duplicate insert fails. -/
theorem insert_duplicate_fails_without_overwrite_witness :
    (insert_job ⟨[⟨"a", "c", "pending", 0, 3, 0, 0, 0⟩], []⟩ 5 "a" "x" 3).1 = false :=
  (insert_duplicate_fails_without_overwrite _ 5 "a" "x" 3 (by decide)).1

/-! ## The attempts counter across all operations -/

/-- **C8.** Across every store operation the `attempts` field of a persisted
row never decreases: `insert_job` keeps old rows and creates the new one at
`0`; `fetch_pending_job` (claim), `update_job_status` (used both for marking
`completed` on success and for the worker's `failed` fallback) leave it
unchanged; `update_job_on_failure` increments it (given that the row the
caller passes is at least as up to date as the stored row, which the claim
protocol guarantees); and `retry_dead_job` either leaves it unchanged or
performs the one sanctioned explicit reset to `0`. -/
theorem attempts_never_decrease :
    (∀ (s : Store) (now : Int) (job_id cmd : String) (mr : Int),
        (∀ r ∈ s.jobs, r ∈ (insert_job s now job_id cmd mr).2.jobs) ∧
        (∀ r ∈ (insert_job s now job_id cmd mr).2.jobs,
            r ∈ s.jobs ∨ r.attempts = 0)) ∧
    (∀ (s : Store) (now : Int),
        List.Forall₂ (fun a b => a.attempts ≤ b.attempts)
          s.jobs (fetch_pending_job s now).2.jobs) ∧
    (∀ (s : Store) (now : Int) (job_id new_state : String),
        List.Forall₂ (fun a b => a.attempts ≤ b.attempts)
          s.jobs (update_job_status s now job_id new_state).jobs) ∧
    (∀ (s : Store) (now : Int) (job : Job),
        (∀ r ∈ s.jobs, r.id = job.id → r.attempts ≤ job.attempts) →
        List.Forall₂ (fun a b => a.attempts ≤ b.attempts)
          s.jobs (update_job_on_failure s now job).2.jobs) ∧
    (∀ (s : Store) (now : Int) (job_id : String),
        List.Forall₂ (fun a b => a.attempts ≤ b.attempts ∨ b.attempts = 0)
          s.jobs (retry_dead_job s now job_id).2.jobs) := by
  refine ⟨?_, ?_, ?_, ?_, ?_⟩
  · intro s now job_id cmd mr
    simp only [insert_job]
    by_cases hb : s.jobs.any (fun j => decide (j.id = job_id)) = true
    · rw [if_pos hb]
      exact ⟨fun r hr => hr, fun r hr => Or.inl hr⟩
    · rw [if_neg hb]
      refine ⟨fun r hr => List.mem_append_left _ hr, ?_⟩
      intro r hr
      rcases List.mem_append.1 hr with hr | hr
      · exact Or.inl hr
      · simp only [List.mem_singleton] at hr
        subst hr
        exact Or.inr rfl
  · intro s now
    unfold fetch_pending_job
    cases hsel : selectPending s now with
    | none => exact List.forall₂_same.2 (fun r _ => le_refl _)
    | some j =>
      simp only
      rw [List.forall₂_map_right_iff, List.forall₂_same]
      intro r _
      by_cases hid : r.id = j.id
      · rw [if_pos hid]
      · rw [if_neg hid]
  · intro s now job_id new_state
    simp only [update_job_status]
    rw [List.forall₂_map_right_iff, List.forall₂_same]
    intro r _
    by_cases hid : r.id = job_id
    · rw [if_pos hid]
    · rw [if_neg hid]
  · intro s now job h
    simp only [update_job_on_failure]
    split
    · rw [List.forall₂_map_right_iff, List.forall₂_same]
      intro r hr
      by_cases hid : r.id = job.id
      · rw [if_pos hid]
        exact le_trans (h r hr hid) (Nat.le_succ _)
      · rw [if_neg hid]
    · rw [List.forall₂_map_right_iff, List.forall₂_same]
      intro r hr
      by_cases hid : r.id = job.id
      · rw [if_pos hid]
        exact le_trans (h r hr hid) (Nat.le_succ _)
      · rw [if_neg hid]
  · intro s now job_id
    simp only [retry_dead_job]
    rw [List.forall₂_map_right_iff, List.forall₂_same]
    intro r _
    by_cases hc : r.id = job_id ∧ r.state = "dead"
    · rw [if_pos hc]
      exact Or.inr rfl
    · rw [if_neg hc]
      exact Or.inl (le_refl _)

/-! ## Claim protocol (`fetch_pending_job`) -/

theorem fetch_pending_job_of_some {s : Store} {now : Int} {j : Job}
    (h : selectPending s now = some j) :
    fetch_pending_job s now =
      (some j,
       { s with jobs := s.jobs.map (fun r =>
           if r.id = j.id then { r with state := "processing", updated_at := now }
           else r) }) := by
  unfold fetch_pending_job
  rw [h]

/-- **C6, counterexample.** The claim's final sentence — after `insert`
followed by `claimNext` the stored row for the inserted id is observed
`processing` — fails when an older eligible row exists: the claim takes the
oldest pending row (`"old"`), and the newly inserted row stays `pending`. -/
theorem claim_after_insert_counterexample :
    (insert_job ⟨[⟨"old", "c", "pending", 0, 3, 0, 0, 0⟩], []⟩ 10 "new" "x" 3).1
      = true ∧
    Option.map Job.id
        (fetch_pending_job
          (insert_job ⟨[⟨"old", "c", "pending", 0, 3, 0, 0, 0⟩], []⟩ 10 "new" "x" 3).2
          10).1
      = some "old" ∧
    Option.map Job.state
        (findJob
          (fetch_pending_job
            (insert_job ⟨[⟨"old", "c", "pending", 0, 3, 0, 0, 0⟩], []⟩ 10 "new" "x" 3).2
            10).2
          "new")
      = some "pending" := by
  decide

/-- **C6 (amended).** `fetch_pending_job` returns a stored row that is
`pending` and due (`run_at ≤ now`) with the smallest `created_at` among all
such rows, marks exactly the rows with its id `processing` (touching
`updated_at`) and hands back the pre-update contents; when no eligible row
exists it returns `none` and changes nothing.  After an `insert` into a
store with no other eligible row, a `claimNext` returns the inserted id and
its stored row is then observed `processing`. -/
theorem claim_next_spec (s : Store) (now : Int) :
    (∀ j, (fetch_pending_job s now).1 = some j →
        j ∈ s.jobs ∧ j.state = "pending" ∧ j.run_at ≤ now ∧
        (∀ r ∈ s.jobs, isEligible now r → j.created_at ≤ r.created_at) ∧
        (fetch_pending_job s now).2.jobs =
          s.jobs.map (fun r =>
            if r.id = j.id then { r with state := "processing", updated_at := now }
            else r)) ∧
    ((fetch_pending_job s now).1 = none →
        (fetch_pending_job s now).2 = s ∧ ∀ r ∈ s.jobs, ¬ isEligible now r) ∧
    (∀ (job_id cmd : String) (mr : Int),
        (∀ r ∈ s.jobs, ¬ isEligible now r) →
        (insert_job s now job_id cmd mr).1 = true →
        Option.map Job.id
            (fetch_pending_job (insert_job s now job_id cmd mr).2 now).1
          = some job_id ∧
        Option.map Job.state
            (findJob (fetch_pending_job (insert_job s now job_id cmd mr).2 now).2
              job_id)
          = some "processing") := by
  refine ⟨?_, ?_, ?_⟩
  · intro j hj
    cases hsel : selectPending s now with
    | none =>
      rw [fetch_pending_job_of_none (selectPending_none hsel)] at hj
      cases hj
    | some k =>
      rw [fetch_pending_job_of_some hsel] at hj ⊢
      simp only [Option.some.injEq] at hj
      subst hj
      obtain ⟨hmem, helig, hmin⟩ := selectPending_some hsel
      exact ⟨hmem, helig.1, helig.2, hmin, rfl⟩
  · intro hn
    cases hsel : selectPending s now with
    | none =>
      rw [fetch_pending_job_of_none (selectPending_none hsel)]
      exact ⟨rfl, selectPending_none hsel⟩
    | some k =>
      rw [fetch_pending_job_of_some hsel] at hn
      cases hn
  · intro job_id cmd mr hq hins
    have hfresh : ¬ (s.jobs.any (fun j => decide (j.id = job_id)) = true) := by
      intro ha
      simp only [insert_job] at hins
      rw [if_pos ha] at hins
      exact Bool.false_ne_true hins
    have hs2 : (insert_job s now job_id cmd mr).2 =
        { s with jobs := s.jobs ++
          [{ id := job_id, command := cmd, state := "pending", attempts := 0,
             max_retries := mr, run_at := now, created_at := now,
             updated_at := now }] } := by
      simp only [insert_job]
      rw [if_neg hfresh]
    have hfilter : (insert_job s now job_id cmd mr).2.jobs.filter
        (fun r => decide (isEligible now r)) =
        [{ id := job_id, command := cmd, state := "pending", attempts := 0,
           max_retries := mr, run_at := now, created_at := now,
           updated_at := now }] := by
      rw [hs2]
      simp only [List.filter_append]
      rw [List.filter_eq_nil_iff.mpr (fun r hr => by simpa using hq r hr),
        List.nil_append]
      simp [isEligible]
    have hsel : selectPending (insert_job s now job_id cmd mr).2 now =
        some { id := job_id, command := cmd, state := "pending", attempts := 0,
               max_retries := mr, run_at := now, created_at := now,
               updated_at := now } := by
      unfold selectPending
      rw [hfilter]
      rfl
    rw [fetch_pending_job_of_some hsel]
    refine ⟨rfl, ?_⟩
    unfold findJob
    rw [hs2]
    simp only [List.map_append]
    rw [List.find?_append]
    have h1 : (s.jobs.map (fun r =>
        if r.id = ({ id := job_id, command := cmd, state := "pending",
                     attempts := 0, max_retries := mr, run_at := now,
                     created_at := now, updated_at := now } : Job).id then
          { r with state := "processing", updated_at := now }
        else r)).find? (fun j => decide (j.id = job_id)) = none := by
      rw [List.find?_eq_none]
      intro x hx
      simp only [List.mem_map] at hx
      obtain ⟨a, ha, rfl⟩ := hx
      have hane : ¬ a.id = job_id := fun hh =>
        hfresh (List.any_eq_true.2 ⟨a, ha, by simpa using hh⟩)
      rw [if_neg hane]
      simpa using hane
    rw [h1]
    simp

/-- In a store with no eligible row, every claim in a sequence returns
`none` and the store is unchanged. -/
theorem claimN_all_none (n : Nat) (s : Store) (now : Int)
    (h : ∀ r ∈ s.jobs, ¬ isEligible now r) :
    claimN n s now = (List.replicate n none, s) := by
  induction n with
  | zero => rfl
  | succ m ih =>
    simp only [claimN]
    rw [fetch_pending_job_of_none h]
    simp only [ih, List.replicate_succ]

/-- **C1.** `BEGIN IMMEDIATE` serialises the claim transactions, so `n + 1`
concurrent callers of `fetch_pending_job` execute as `n + 1` sequential
claims in some order.  Against a store whose only eligible row (pending and
due) is `j`, the sequence of results is `some j` followed by `n` times
`none`: exactly one caller receives the job, every other caller receives
nothing, and no row is marked `processing` twice. -/
theorem single_eligible_claimed_exactly_once (s : Store) (now : Int) (j : Job)
    (n : Nat)
    (h : s.jobs.filter (fun r => decide (isEligible now r)) = [j]) :
    (claimN (n + 1) s now).1 = some j :: List.replicate n none := by
  have hsel : selectPending s now = some j := by
    unfold selectPending
    rw [h]
    rfl
  have hfetch := fetch_pending_job_of_some hsel
  have hpost : ∀ r' ∈ (fetch_pending_job s now).2.jobs, ¬ isEligible now r' := by
    rw [hfetch]
    simp only [List.mem_map]
    rintro r' ⟨a, ha, rfl⟩
    by_cases hid : a.id = j.id
    · rw [if_pos hid]
      intro he
      have hps : "processing" = "pending" := he.1
      exact absurd hps (by decide)
    · rw [if_neg hid]
      intro he
      have hmem : a ∈ s.jobs.filter (fun r => decide (isEligible now r)) :=
        List.mem_filter.2 ⟨ha, decide_eq_true he⟩
      rw [h, List.mem_singleton] at hmem
      exact hid (hmem ▸ rfl)
  rw [hfetch] at hpost
  simp only [claimN]
  rw [hfetch]
  simp only [claimN_all_none n _ now hpost]

/-- **C1, witness.** One pending job, three serialised claimers: the first
gets the job, the other two get `none`. -/
theorem single_eligible_claimed_exactly_once_witness :
    (claimN 3 ⟨[⟨"a", "c", "pending", 0, 3, 0, 0, 0⟩], []⟩ 5).1 =
      some ⟨"a", "c", "pending", 0, 3, 0, 0, 0⟩ :: List.replicate 2 none :=
  single_eligible_claimed_exactly_once _ 5 _ 2 (by decide)

end QueueCTL
